import Mathlib

/-!
Verification of the frame-streaming pipeline in Lab4 (camera_server.py,
processing_server.py, background_remover.py, config.py).

The producer captures frames, serializes each one as a JSON object followed
by a newline (camera_server.send_frame), and the consumer accumulates the
byte stream, splits it at newlines, decodes each line, batches the decoded
frames, and processes each batch (processing_server.receive_and_process_frames
and _process_batch_with_spark).  External capabilities (base64, cv2 image
codec, MediaPipe segmentation, the filesystem, the socket) are modelled as
explicit parameters; everything else is translated from the source.

The wire stream is ASCII (JSON with base64 payloads), so it is modelled as
`List Char`.  Wall-clock timestamps are modelled as natural tick counts;
nothing in the claims depends on float arithmetic on them.
-/

/-- One frame payload dict as built by camera_server.send_frame (lines 70-76):
keys frame_id, timestamp, width, height, data, in that insertion order.
`data` is the base64 JPEG string; `timestamp` (a wall-clock float in the
source) is modelled as an integer tick count. -/
structure FrameRecord where
  frame_id : Nat
  timestamp : Nat
  width : Nat
  height : Nat
  data : List Char
deriving DecidableEq, Repr

/-- Decimal digit characters as produced by Python's integer formatting. -/
def digitChar : Nat → Char
  | 0 => '0'
  | 1 => '1'
  | 2 => '2'
  | 3 => '3'
  | 4 => '4'
  | 5 => '5'
  | 6 => '6'
  | 7 => '7'
  | 8 => '8'
  | _ => '9'

/-- Numeric value of a decimal digit character. -/
def charVal (c : Char) : Nat := c.toNat - 48

/-- Base-10 digits of n, most significant first; the first argument is
structural fuel (n itself suffices, since n / 10 < n for n > 0). -/
def natCharsAux : Nat → Nat → List Char
  | 0, _ => []
  | _ + 1, 0 => []
  | fuel + 1, n + 1 => natCharsAux fuel ((n + 1) / 10) ++ [digitChar ((n + 1) % 10)]

/-- The decimal string Python prints for a nonnegative int. -/
def natChars (n : Nat) : List Char :=
  if n = 0 then ['0'] else natCharsAux n n

/-- Value of a most-significant-first decimal digit string. -/
def digitsVal (ds : List Char) : Nat :=
  ds.foldl (fun a c => 10 * a + charVal c) 0

/-- Read a decimal number from the head of the character stream (the number
grammar of json.loads, restricted to the nonnegative integers the producer
emits); fails if no digit is present. -/
def parseNat (s : List Char) : Option (Nat × List Char) :=
  let ds := s.takeWhile Char.isDigit
  if ds.isEmpty then none else some (digitsVal ds, s.dropWhile Char.isDigit)

/-- Consume an expected literal from the head of the stream. -/
def dropPref : List Char → List Char → Option (List Char)
  | [], s => some s
  | _ :: _, [] => none
  | p :: ps, c :: cs => if c = p then dropPref ps cs else none

/-- Literal pieces of the JSON line written by json.dumps for the payload
dict, with its default separators (", " between members, ": " after keys). -/
def litFrameId : List Char := "\"frame_id\": ".toList

/-- Literal between the frame_id value and the timestamp value. -/
def litTimestamp : List Char := " \"timestamp\": ".toList

/-- Literal between the timestamp value and the width value. -/
def litWidth : List Char := " \"width\": ".toList

/-- Literal between the width value and the height value. -/
def litHeight : List Char := " \"height\": ".toList

/-- Literal between the height value and the opening quote of the data
string. -/
def litData : List Char := " \"data\": \"".toList

/-- The exact line produced by json.dumps(payload) in send_frame (line 79):
an object with members frame_id, timestamp, width, height, data in insertion
order, numbers in decimal, data as a quoted base64 string. -/
def jsonOfFrame (f : FrameRecord) : List Char :=
  '\x7b' :: (litFrameId ++ natChars f.frame_id ++
    ',' :: litTimestamp ++ natChars f.timestamp ++
    ',' :: litWidth ++ natChars f.width ++
    ',' :: litHeight ++ natChars f.height ++
    ',' :: litData ++ f.data ++ '"' :: ['\x7d'])

/-- camera_server.send_frame (lines 63-82): the JSON payload plus the "\n"
record delimiter, sent whole over the socket by sendall. -/
def send_frame (f : FrameRecord) : List Char := jsonOfFrame f ++ ['\n']

/-- Characters that can occur in a base64 string (the alphabet of
base64.b64encode plus padding). -/
def isB64 (c : Char) : Bool := c.isAlphanum || c == '+' || c == '/' || c == '='

/-- A well-formed frame record: its data field is a base64 string, as
produced by encode_frame (lines 55-61). -/
def WellFormed (f : FrameRecord) : Prop := ∀ c ∈ f.data, isB64 c = true

instance (f : FrameRecord) : Decidable (WellFormed f) :=
  inferInstanceAs (Decidable (∀ c ∈ f.data, isB64 c = true))

/-- Whitespace characters stripped by Python's str.strip(). -/
def isSpaceChar (c : Char) : Bool :=
  c == ' ' || c == '\t' || c == '\n' || c == '\r' || c == '\x0b' || c == '\x0c'

/-- Python str.strip(): remove leading and trailing whitespace. -/
def stripChars (l : List Char) : List Char :=
  ((l.dropWhile isSpaceChar).reverse.dropWhile isSpaceChar).reverse

/-- json.loads of one wire line, specialized to the producer's record shape:
parses the exact object grammar jsonOfFrame emits and fails (JSONDecodeError
in the source) on anything else.  json.loads ignores whitespace around the
document, so the input is stripped first. -/
def parseFrame (s0 : List Char) : Option FrameRecord := do
  let s ← dropPref (['\x7b'] ++ litFrameId) (stripChars s0)
  let (fid, s1) ← parseNat s
  let s2 ← dropPref (',' :: litTimestamp) s1
  let (ts, s3) ← parseNat s2
  let s4 ← dropPref (',' :: litWidth) s3
  let (w, s5) ← parseNat s4
  let s6 ← dropPref (',' :: litHeight) s5
  let (h, s7) ← parseNat s6
  let s8 ← dropPref (',' :: litData) s7
  let d := s8.takeWhile (fun c => c != '"')
  let s9 ← dropPref ('"' :: ['\x7d']) (s8.dropWhile (fun c => c != '"'))
  if s9.isEmpty then some ⟨fid, ts, w, h, d⟩ else none

/-- The body of the inner loop of receive_and_process_frames for one complete
line (lines 112-131): a line that is empty after stripping is skipped; a line
that fails JSON decoding yields nothing (the JSONDecodeError is logged and the
loop continues); otherwise the decoded frame is appended. -/
def lineToFrame (line : List Char) : Option FrameRecord :=
  if stripChars line = [] then none else parseFrame line

/-- The inner loop of receive_and_process_frames (lines 110-131): while the
buffer contains a newline, split off the first line and decode it.  `out` is
the list of frames decoded so far, `cur` holds the characters of the
current not-yet-terminated line, and the third argument the characters still
to scan. -/
def drainLines : List FrameRecord → List Char → List Char → List FrameRecord × List Char
  | out, cur, [] => (out, cur)
  | out, cur, c :: rest =>
    if c = '\n' then drainLines (out ++ (lineToFrame cur).toList) [] rest
    else drainLines out (cur ++ [c]) rest

/-- One iteration of the outer receive loop (lines 101-131): append the
received chunk to the buffer and drain all complete lines. -/
def recvChunk (st : List FrameRecord × List Char) (chunk : List Char) :
    List FrameRecord × List Char :=
  drainLines st.1 [] (st.2 ++ chunk)

/-- The outer receive loop (lines 99-104): recv chunks until a zero-byte
read (an empty chunk, modelling orderly end of stream) or until the supplied
chunk list is exhausted. -/
def receiveLoop : (List FrameRecord × List Char) → List (List Char) → List FrameRecord × List Char
  | st, [] => st
  | st, c :: cs => if c = [] then st else receiveLoop (recvChunk st c) cs

/-- Run the whole receive loop from an empty buffer: the decoded frames in
arrival order, and the residual buffer of the trailing incomplete line. -/
def receiveAll (chunks : List (List Char)) : List FrameRecord × List Char :=
  receiveLoop ([], []) chunks

/-- batch_size is fixed to 10 in receive_and_process_frames (line 93). -/
def batch_size : Nat := 10

/-- Lines 117-123: append the decoded frame to frame_buffer; once the buffer
holds batch_size frames, dispatch it to _process_batch_with_spark and start a
fresh empty buffer. -/
def accumStep (B : Nat) (st : List (List FrameRecord) × List FrameRecord)
    (f : FrameRecord) : List (List FrameRecord) × List FrameRecord :=
  let buf := st.2 ++ [f]
  if B ≤ buf.length then (st.1 ++ [buf], []) else (st.1, buf)

/-- The batches dispatched for a stream of decoded frames: the full batches
dispatched inside the loop plus, after the stream ends, the final flush of a
non-empty remainder (lines 133-137). -/
def batchesOf (B : Nat) (frames : List FrameRecord) : List (List FrameRecord) :=
  let st := frames.foldl (accumStep B) ([], [])
  if st.2 = [] then st.1 else st.1 ++ [st.2]

/-- receive_and_process_frames (lines 80-147) at the level of dispatched
work: decode the chunk stream, batch the decoded frames in arrival order, and
leave the residual undecoded buffer behind.  Batching commutes with the
receive loop because both fold over the frames in arrival order, so the
dispatched batches are a function of the decoded frame sequence. -/
def receive_and_process_frames (chunks : List (List Char)) :
    List (List FrameRecord) × List Char :=
  let st := receiveAll chunks
  (batchesOf batch_size st.1, st.2)

/-- One per-frame processing result dict as appended to `results` by
_process_batch_with_spark: status is "success" (with an output_path) or
"error" (with an error message). -/
structure Outcome where
  frame_id : Nat
  status : String
  output_path : Option (List Char)
  error : Option String
deriving DecidableEq, Repr

/-- External capabilities used by the processing stage, as consumed by
_process_batch_with_spark: base64 decoding (which may raise), cv2.imdecode
(which returns None on undecodable bytes), remove_background (MediaPipe
segmentation, which may raise), and cv2.imwrite (which may raise). -/
structure Caps (Image : Type) where
  b64decode : List Char → Except String (List Nat)
  imdecode : List Nat → Option Image
  remove_background : Image → Except String Image
  imwrite : List Char → Image → Except String Unit

/-- Python's f-string formatting f"frame_-id-:06d": the decimal digits,
zero-padded on the left to width 6. -/
def zeroPad6 (n : Nat) : List Char :=
  List.replicate (6 - (natChars n).length) '0' ++ natChars n

/-- os.path.join(output_dir, f"frame_-id-:06d.jpg") (line 183). -/
def outputPathFor (output_dir : List Char) (fid : Nat) : List Char :=
  output_dir ++ "/frame_".toList ++ zeroPad6 fid ++ ".jpg".toList

/-- The per-frame try block of _process_batch_with_spark (lines 161-197):
base64-decode the payload; if cv2.imdecode yields None, record the
"Failed to decode frame" error and continue; otherwise segment, write the
output file, and record success.  Any exception raised for this frame is
caught and recorded as this frame's error result.  Returns the appended
result dict together with the files written for this frame. -/
def processFrame {Image : Type} (caps : Caps Image) (output_dir : List Char)
    (fd : FrameRecord) : Outcome × List (List Char × Image) :=
  match caps.b64decode fd.data with
  | .error e => (⟨fd.frame_id, "error", none, some e⟩, [])
  | .ok bs =>
    match caps.imdecode bs with
    | none => (⟨fd.frame_id, "error", none, some "Failed to decode frame"⟩, [])
    | some frame =>
      match caps.remove_background frame with
      | .error e => (⟨fd.frame_id, "error", none, some e⟩, [])
      | .ok processed =>
        let path := outputPathFor output_dir fd.frame_id
        match caps.imwrite path processed with
        | .error e => (⟨fd.frame_id, "error", none, some e⟩, [])
        | .ok _ => (⟨fd.frame_id, "success", some path, none⟩, [(path, processed)])

/-- _process_batch_with_spark (lines 149-203): sc.parallelize followed by
collect() is an identity round trip over the batch (the records come back
unchanged before any per-frame work), after which each frame is processed in
order and its result dict appended to `results`.  Returns the results
together with all files written during the call. -/
def _process_batch_with_spark {Image : Type} (caps : Caps Image)
    (output_dir : List Char) (frame_batch : List FrameRecord) :
    List Outcome × List (List Char × Image) :=
  frame_batch.foldl
    (fun st fd =>
      let pr := processFrame caps output_dir fd
      (st.1 ++ [pr.1], st.2 ++ pr.2))
    ([], [])

/-- The image a payload decodes to, if any: base64 then cv2.imdecode; none
when either step fails (the frame counts as undecodable). -/
def decodedImage {Image : Type} (caps : Caps Image) (d : List Char) : Option Image :=
  match caps.b64decode d with
  | .error _ => none
  | .ok bs => caps.imdecode bs

/-- One BGR pixel (uint8 channels modelled as Nat). -/
structure Pixel where
  r : Nat
  g : Nat
  b : Nat
deriving DecidableEq, Repr

/-- background_remover.BG_COLOR (line 7): the replacement gray. -/
def BG_COLOR : Pixel := ⟨192, 192, 192⟩

/-- background_remover.MASK_COLOR (line 8): white (built into fg_image,
which the source never uses). -/
def MASK_COLOR : Pixel := ⟨255, 255, 255⟩

/-- background_remover.remove_background (lines 15-30): obtain the uint8
category mask from the external segmenter, broadcast the per-pixel condition
mask > 0.2 across the three channels (np.stack dimension-wise), and take the
replacement color where the condition holds and the original pixel elsewhere
(np.where).  Images are flattened row-major to a pixel list; the comparison
of the integer mask value with the 0.2 float threshold is exact rational
arithmetic. -/
def remove_background (segment : List Pixel → List Nat) (frame : List Pixel) :
    List Pixel :=
  let category_mask := segment frame
  List.zipWith (fun (m : Nat) (px : Pixel) =>
      if (1 : ℚ) / 5 < (m : ℚ) then BG_COLOR else px)
    category_mask frame

/-- Result of one socket.connect attempt, as distinguished by
connect_to_server's handlers: success, ConnectionRefusedError, or any other
exception (which the function does not catch). -/
inductive ConnAttempt where
  | success
  | refused
  | fatal (e : String)
deriving DecidableEq, Repr

/-- Observable result of connect_to_server: returned True after some number
of attempts, returned False after exhausting the budget (with one fixed
time.sleep(2) after every refused attempt), or propagated an uncaught
exception. -/
inductive ConnectResult where
  | connected (attempts : Nat)
  | failed (attempts : Nat) (sleeps : Nat)
  | raised (e : String) (attempts : Nat)
deriving DecidableEq, Repr

/-- The retry loop of connect_to_server (camera_server.py lines 40-53):
while retry_count < max_retries, attempt to connect; on success return True;
on ConnectionRefusedError increment retry_count, sleep the fixed delay and
loop; any other exception propagates.  After the loop return False.  The
first argument of the recursion is the remaining budget, the second the
number of attempts made so far (each one refused, hence also the number of
sleeps so far); `oracle i` is the outcome of attempt number i. -/
def connectGo (oracle : Nat → ConnAttempt) : Nat → Nat → ConnectResult
  | 0, k => .failed k k
  | n + 1, k =>
    match oracle k with
    | .success => .connected (k + 1)
    | .refused => connectGo oracle n (k + 1)
    | .fatal e => .raised e (k + 1)

/-- The fixed retry delay time.sleep(2) (line 50). -/
def RETRY_DELAY : Nat := 2

/-- max_retries is fixed to 5 in connect_to_server (line 40). -/
def max_retries : Nat := 5

/-- camera_server.connect_to_server (lines 34-53) with the source's
hardcoded budget. -/
def connect_to_server (oracle : Nat → ConnAttempt) : ConnectResult :=
  connectGo oracle max_retries 0

/-- The two OS resources held by ProcessingServer.run: the listening socket
and the accepted connection. -/
structure Resources where
  server_socket_open : Bool
  connection_open : Bool
deriving DecidableEq, Repr

/-- Which steps of a run raise: bind/listen (start_tcp_server), accept, or
the receive/processing loop.  The exception is swallowed by run's
`except Exception` (or, for an interrupt, propagates), and the finally block
runs in every case. -/
structure RunScenario where
  bind_fails : Bool
  accept_fails : Bool
  process_raises : Bool
deriving DecidableEq, Repr

/-- ProcessingServer.cleanup (lines 223-228): closes self.server_socket if
set; the accepted connection is not touched. -/
def cleanup (r : Resources) : Resources := { r with server_socket_open := false }

/-- ProcessingServer.run (lines 205-221): try start_tcp_server (allocates
the listening socket, after which bind may raise), accept (on success the
connection is held), receive_and_process_frames; except Exception swallows;
finally cleanup.  The result is the resources still held when run returns.
Whether the processing loop raises does not change the held resources at the
finally block. -/
def run (s : RunScenario) : Resources :=
  let r1 : Resources := ⟨true, false⟩
  if s.bind_fails then cleanup r1
  else if s.accept_fails then cleanup r1
  else cleanup ⟨true, true⟩

/-- Concrete fixture: frames 0..24 for the 25-frame end-to-end scenario. -/
def framesC3 : List FrameRecord :=
  (List.range 25).map (fun i => ⟨i, i, 320, 240, []⟩)

/-- Concrete fixture: 7 frames for the dropped-connection scenario. -/
def framesC4 : List FrameRecord :=
  (List.range 7).map (fun i => ⟨i, i, 320, 240, ['A']⟩)

/-- Concrete fixture: the wire bytes of framesC4 followed by the beginning
of an 8th record that never gets its newline. -/
def chunksC4 : List (List Char) :=
  [(framesC4.map send_frame).flatten ++ ['\x7b', '"', 'f']]

/-- Concrete fixture: two frames around a malformed line. -/
def frameC9a : FrameRecord := ⟨0, 0, 2, 2, ['Q', 'Q']⟩

/-- Concrete fixture: the frame after the malformed line. -/
def frameC9b : FrameRecord := ⟨1, 1, 2, 2, ['R', 'R']⟩

/-- Concrete fixture: a newline-terminated line that is not valid JSON. -/
def badLineC9 : List Char := "oops not json".toList

/-- Concrete fixture: a valid record, then the malformed line, then another
valid record, delivered as one chunk. -/
def chunksC9 : List (List Char) :=
  [send_frame frameC9a ++ badLineC9 ++ '\n' :: send_frame frameC9b]

/-- Concrete fixture: a whitespace-only line between two valid records. -/
def wsLineC10 : List Char := [' ', '\t', ' ']

/-- Concrete fixture: a valid record, a blank line, another valid record. -/
def chunksC10 : List (List Char) :=
  [send_frame frameC9a ++ wsLineC10 ++ '\n' :: send_frame frameC9b]

/-- Concrete capabilities over a unit image type: base64 decoding always
succeeds, imdecode fails exactly on the empty byte string, segmentation and
writing always succeed. -/
def capsOk : Caps Unit where
  b64decode := fun d => .ok (d.map Char.toNat)
  imdecode := fun bs => if bs = [] then none else some ()
  remove_background := fun _ => .ok ()
  imwrite := fun _ _ => .ok ()

/-- Concrete capabilities whose segmentation step always raises. -/
def capsSegRaise : Caps Unit where
  b64decode := fun d => .ok (d.map Char.toNat)
  imdecode := fun bs => if bs = [] then none else some ()
  remove_background := fun _ => .error "segfault"
  imwrite := fun _ _ => .ok ()

/-- Concrete fixture: a two-frame batch whose second frame has an
undecodable (empty) payload. -/
def batchC1 : List FrameRecord := [⟨0, 0, 1, 1, ['A']⟩, ⟨1, 1, 1, 1, []⟩]

/-- Concrete fixture: output directory name. -/
def dirC1 : List Char := "output_frames".toList

/-- Concrete fixture: a mask with one sub-threshold and one above-threshold
value. -/
def segC5 : List Pixel → List Nat := fun _ => [0, 7]

/-- Concrete fixture: a two-pixel frame. -/
def frameC5 : List Pixel := [⟨1, 2, 3⟩, ⟨4, 5, 6⟩]

/-- Concrete fixture: one record split into two chunks at byte offset 10,
in the middle of the record. -/
def chunksC2 : List (List Char) :=
  [(send_frame frameC9a).take 10, (send_frame frameC9a).drop 10]

/-- Concrete fixture: an always-refused connect oracle. -/
def oracleRefused : Nat → ConnAttempt := fun _ => .refused

/-- Concrete fixture: refused once, then an uncaught error. -/
def oracleFatal : Nat → ConnAttempt := fun i => if i = 0 then .refused else .fatal "unreachable"

/-! ### Decimal printing and parsing -/

lemma charVal_digitChar {d : Nat} (hd : d < 10) : charVal (digitChar d) = d := by
  interval_cases d <;> decide

lemma isDigit_digitChar {d : Nat} (hd : d < 10) : (digitChar d).isDigit = true := by
  interval_cases d <;> decide

lemma natCharsAux_digits :
    ∀ fuel n, ∀ c ∈ natCharsAux fuel n, c.isDigit = true := by
  intro fuel
  induction fuel with
  | zero => intro n c hc; simp [natCharsAux] at hc
  | succ fuel ih =>
    intro n c hc
    match n with
    | 0 => simp [natCharsAux] at hc
    | m + 1 =>
      simp only [natCharsAux, List.mem_append, List.mem_singleton] at hc
      rcases hc with hc | hc
      · exact ih _ c hc
      · subst hc; exact isDigit_digitChar (Nat.mod_lt _ (by omega))

lemma natChars_digits (n : Nat) : ∀ c ∈ natChars n, c.isDigit = true := by
  intro c hc
  unfold natChars at hc
  split at hc
  · simp at hc; subst hc; decide
  · exact natCharsAux_digits _ _ c hc

lemma natChars_ne_nil (n : Nat) : natChars n ≠ [] := by
  unfold natChars
  split
  · simp
  · rename_i hn
    match hm : n with
    | 0 => exact absurd rfl hn
    | m + 1 => simp [natCharsAux]

lemma digitsVal_go (n : Nat) : ∀ fuel, n ≤ fuel → ∀ a : Nat,
    List.foldl (fun a c => 10 * a + charVal c) a (natCharsAux fuel n) =
      a * 10 ^ (natCharsAux fuel n).length + n := by
  induction n using Nat.strong_induction_on with
  | _ n ih =>
    intro fuel hf a
    match fuel, n with
    | 0, n =>
      interval_cases n
      simp [natCharsAux]
    | fuel + 1, 0 => simp [natCharsAux]
    | fuel + 1, m + 1 =>
      have hdiv : (m + 1) / 10 < m + 1 := Nat.div_lt_self (by omega) (by omega)
      have hfuel : (m + 1) / 10 ≤ fuel := by omega
      simp only [natCharsAux, List.foldl_append, List.length_append,
        List.foldl_cons, List.foldl_nil, List.length_cons, List.length_nil]
      rw [ih _ hdiv fuel hfuel a,
        charVal_digitChar (Nat.mod_lt _ (show 0 < 10 by omega))]
      have hmod := Nat.div_add_mod (m + 1) 10
      have hpow : 10 ^ (0 + 1) = 10 := by norm_num
      rw [pow_succ]
      ring_nf
      omega

lemma digitsVal_natChars (n : Nat) : digitsVal (natChars n) = n := by
  unfold natChars digitsVal
  split
  · rename_i h; subst h; decide
  · rename_i h
    rw [digitsVal_go n n le_rfl 0]
    omega

/-! ### takeWhile, dropWhile and literal consumption -/

lemma takeWhile_append_all {p : Char → Bool} {l : List Char}
    (hl : ∀ c ∈ l, p c = true) {c : Char} (hc : p c = false) (r : List Char) :
    (l ++ c :: r).takeWhile p = l := by
  induction l with
  | nil => simp [List.takeWhile_cons, hc]
  | cons x xs ih =>
    have hx := hl x (List.mem_cons_self x xs)
    simp only [List.cons_append, List.takeWhile_cons, hx, if_true]
    rw [ih (fun c hc => hl c (List.mem_cons_of_mem x hc))]

lemma dropWhile_append_all {p : Char → Bool} {l : List Char}
    (hl : ∀ c ∈ l, p c = true) {c : Char} (hc : p c = false) (r : List Char) :
    (l ++ c :: r).dropWhile p = c :: r := by
  induction l with
  | nil => simp [List.dropWhile_cons, hc]
  | cons x xs ih =>
    have hx := hl x (List.mem_cons_self x xs)
    simp only [List.cons_append, List.dropWhile_cons, hx, if_true]
    exact ih (fun c hc => hl c (List.mem_cons_of_mem x hc))

lemma parseNat_natChars (n : Nat) {c : Char} (hc : c.isDigit = false)
    (r : List Char) : parseNat (natChars n ++ c :: r) = some (n, c :: r) := by
  unfold parseNat
  rw [takeWhile_append_all (natChars_digits n) hc,
    dropWhile_append_all (natChars_digits n) hc]
  simp [List.isEmpty_iff, natChars_ne_nil, digitsVal_natChars]

lemma dropPref_append (p r : List Char) : dropPref p (p ++ r) = some r := by
  induction p with
  | nil => rfl
  | cons x xs ih => simp [dropPref, ih]

lemma dropPref_cons_append (c : Char) (p r : List Char) :
    dropPref (c :: p) (c :: (p ++ r)) = some r := by
  simpa using dropPref_append (c :: p) r

lemma dropPref_refl (p : List Char) : dropPref p p = some [] := by
  simpa using dropPref_append p []

/-! ### Stripping and the round trip of one wire line -/

lemma dropWhile_cons_of_neg {p : Char → Bool} {x : Char} {xs : List Char}
    (h : p x = false) : List.dropWhile p (x :: xs) = x :: xs := by
  simp [List.dropWhile_cons, h]

lemma stripChars_wrapped {a b : Char} (xs : List Char)
    (ha : isSpaceChar a = false) (hb : isSpaceChar b = false) :
    stripChars (a :: (xs ++ [b])) = a :: (xs ++ [b]) := by
  unfold stripChars
  rw [dropWhile_cons_of_neg ha]
  rw [show (a :: (xs ++ [b])).reverse = b :: (xs.reverse ++ [a]) by simp]
  rw [dropWhile_cons_of_neg hb]
  simp

lemma jsonOfFrame_wrapped (f : FrameRecord) :
    jsonOfFrame f = '\x7b' ::
      ((litFrameId ++ natChars f.frame_id ++
        ',' :: litTimestamp ++ natChars f.timestamp ++
        ',' :: litWidth ++ natChars f.width ++
        ',' :: litHeight ++ natChars f.height ++
        ',' :: litData ++ f.data ++ ['"']) ++ ['\x7d']) := by
  simp [jsonOfFrame, List.append_assoc]

lemma stripChars_jsonOfFrame (f : FrameRecord) :
    stripChars (jsonOfFrame f) = jsonOfFrame f := by
  rw [jsonOfFrame_wrapped]
  exact stripChars_wrapped _ (by decide) (by decide)

lemma isB64_ne_quote {c : Char} (h : isB64 c = true) : (c != '"') = true := by
  rcases eq_or_ne c '"' with rfl | hne
  · exact absurd h (by decide)
  · simp [hne]

lemma parseFrame_jsonOfFrame {f : FrameRecord} (hf : WellFormed f) :
    parseFrame (jsonOfFrame f) = some f := by
  obtain ⟨fid, ts, w, h, d⟩ := f
  unfold parseFrame
  rw [stripChars_jsonOfFrame]
  simp only [jsonOfFrame, List.append_assoc, List.cons_append, List.nil_append,
    List.singleton_append]
  rw [dropPref_cons_append]
  simp only [Option.bind_eq_bind, Option.some_bind]
  rw [parseNat_natChars fid (by decide)]
  simp only [Option.some_bind]
  rw [dropPref_cons_append]
  simp only [Option.some_bind]
  rw [parseNat_natChars ts (by decide)]
  simp only [Option.some_bind]
  rw [dropPref_cons_append]
  simp only [Option.some_bind]
  rw [parseNat_natChars w (by decide)]
  simp only [Option.some_bind]
  rw [dropPref_cons_append]
  simp only [Option.some_bind]
  rw [parseNat_natChars h (by decide)]
  simp only [Option.some_bind]
  rw [dropPref_cons_append]
  simp only [Option.some_bind]
  rw [takeWhile_append_all (fun c hc => isB64_ne_quote (hf c hc)) (by decide),
    dropWhile_append_all (fun c hc => isB64_ne_quote (hf c hc)) (by decide)]
  rw [dropPref_refl]
  rfl

lemma lineToFrame_jsonOfFrame {f : FrameRecord} (hf : WellFormed f) :
    lineToFrame (jsonOfFrame f) = some f := by
  unfold lineToFrame
  rw [stripChars_jsonOfFrame]
  rw [if_neg (by rw [jsonOfFrame_wrapped]; simp)]
  exact parseFrame_jsonOfFrame hf

lemma noNL_jsonOfFrame {f : FrameRecord} (hf : WellFormed f) :
    '\n' ∉ jsonOfFrame f := by
  have hA : '\n' ∉ litFrameId := by decide
  have hB : '\n' ∉ litTimestamp := by decide
  have hC : '\n' ∉ litWidth := by decide
  have hD : '\n' ∉ litHeight := by decide
  have hE : '\n' ∉ litData := by decide
  have hnat : ∀ n, '\n' ∉ natChars n := fun n hmem =>
    absurd (natChars_digits n _ hmem) (by decide)
  have h1 := hnat f.frame_id
  have h2 := hnat f.timestamp
  have h3 := hnat f.width
  have h4 := hnat f.height
  have hdata : '\n' ∉ f.data := fun hmem => absurd (hf _ hmem) (by decide)
  have hc1 : ¬ ('\n' = '\x7b') := by decide
  have hc2 : ¬ ('\n' = '\x7d') := by decide
  have hc3 : ¬ ('\n' = ',') := by decide
  have hc4 : ¬ ('\n' = '"') := by decide
  intro hmem
  simp only [jsonOfFrame, List.mem_cons, List.mem_append, List.mem_singleton] at hmem
  tauto

/-! ### The consumer's buffer-and-split loop -/

lemma drain_no_nl {s : List Char} (hs : '\n' ∉ s) :
    ∀ out cur, drainLines out cur s = (out, cur ++ s) := by
  induction s with
  | nil => intro out cur; simp [drainLines]
  | cons c rest ih =>
    intro out cur
    have hc : ¬ (c = '\n') := fun hh => hs (hh ▸ List.mem_cons_self c rest)
    have hrest : '\n' ∉ rest := fun hh => hs (List.mem_cons_of_mem c hh)
    simp only [drainLines, if_neg hc]
    rw [ih hrest]
    simp

lemma drain_line {l : List Char} (hl : '\n' ∉ l) :
    ∀ out cur (rest : List Char),
      drainLines out cur (l ++ '\n' :: rest) =
        drainLines (out ++ (lineToFrame (cur ++ l)).toList) [] rest := by
  induction l with
  | nil => intro out cur rest; simp [drainLines]
  | cons c l ih =>
    intro out cur rest
    have hc : ¬ (c = '\n') := fun hh => hl (hh ▸ List.mem_cons_self c l)
    have hl2 : '\n' ∉ l := fun hh => hl (List.mem_cons_of_mem c hh)
    simp only [List.cons_append, drainLines, if_neg hc, List.append_eq]
    rw [ih hl2]
    simp

lemma drain_append (x : List Char) :
    ∀ out cur (y : List Char),
      drainLines out cur (x ++ y) =
        drainLines (drainLines out cur x).1 (drainLines out cur x).2 y := by
  induction x with
  | nil => intro out cur y; simp [drainLines]
  | cons c x ih =>
    intro out cur y
    by_cases hc : c = '\n'
    · subst hc
      simp only [List.cons_append, drainLines, if_pos rfl]
      exact ih _ _ y
    · simp only [List.cons_append, drainLines, if_neg hc]
      exact ih _ _ y

lemma drain_snd_no_nl {s : List Char} :
    ∀ out cur, '\n' ∉ cur → '\n' ∉ (drainLines out cur s).2 := by
  induction s with
  | nil => intro out cur hcur; simpa [drainLines] using hcur
  | cons c rest ih =>
    intro out cur hcur
    by_cases hc : c = '\n'
    · subst hc
      simp only [drainLines, if_pos rfl]
      exact ih _ _ (by simp)
    · simp only [drainLines, if_neg hc]
      refine ih _ _ ?_
      intro hmem
      rcases List.mem_append.mp hmem with h | h
      · exact hcur h
      · simp at h; exact hc h.symm

lemma drain_shift {cur : List Char} (hcur : '\n' ∉ cur) :
    ∀ out pre (y : List Char),
      drainLines out pre (cur ++ y) = drainLines out (pre ++ cur) y := by
  induction cur with
  | nil => intro out pre y; simp
  | cons c cur ih =>
    intro out pre y
    have hc : ¬ (c = '\n') := fun hh => hcur (hh ▸ List.mem_cons_self c cur)
    have hcur2 : '\n' ∉ cur := fun hh => hcur (List.mem_cons_of_mem c hh)
    simp only [List.cons_append, drainLines, if_neg hc, List.append_eq]
    rw [ih hcur2]
    simp

lemma receiveLoop_flatten {chunks : List (List Char)}
    (hne : ∀ c ∈ chunks, c ≠ []) :
    ∀ out (buf : List Char), '\n' ∉ buf →
      receiveLoop (out, buf) chunks = drainLines out buf chunks.flatten := by
  induction chunks with
  | nil =>
    intro out buf hbuf
    simp [receiveLoop, drainLines]
  | cons c cs ih =>
    intro out buf hbuf
    have hc : c ≠ [] := hne c (List.mem_cons_self c cs)
    have hcs : ∀ x ∈ cs, x ≠ [] := fun x hx => hne x (List.mem_cons_of_mem c hx)
    simp only [receiveLoop, if_neg hc, recvChunk]
    rw [drain_shift hbuf out [] c]
    simp only [List.nil_append]
    rw [ih hcs _ _ (drain_snd_no_nl _ _ hbuf), List.flatten_cons, drain_append]

lemma drain_frames {fs : List FrameRecord} (hwf : ∀ f ∈ fs, WellFormed f) :
    ∀ out (tail : List Char),
      drainLines out [] ((fs.map send_frame).flatten ++ tail) =
        drainLines (out ++ fs) [] tail := by
  induction fs with
  | nil => intro out tail; simp
  | cons f fs ih =>
    intro out tail
    have hf : WellFormed f := hwf f (List.mem_cons_self f fs)
    have hfs : ∀ g ∈ fs, WellFormed g := fun g hg => hwf g (List.mem_cons_of_mem f hg)
    rw [show ((f :: fs).map send_frame).flatten ++ tail =
        jsonOfFrame f ++ '\n' :: ((fs.map send_frame).flatten ++ tail) by
      simp [send_frame, List.append_assoc]]
    rw [drain_line (noNL_jsonOfFrame hf)]
    simp only [List.nil_append, lineToFrame_jsonOfFrame hf, Option.toList_some]
    rw [ih hfs, List.append_assoc, List.singleton_append]

lemma receiveLoop_stop_empty {chunks : List (List Char)}
    (hne : ∀ c ∈ chunks, c ≠ []) (rest : List (List Char)) :
    ∀ st, receiveLoop st (chunks ++ [] :: rest) = receiveLoop st chunks := by
  induction chunks with
  | nil => intro st; simp [receiveLoop]
  | cons c cs ih =>
    intro st
    have hc : c ≠ [] := hne c (List.mem_cons_self c cs)
    have hcs : ∀ x ∈ cs, x ≠ [] := fun x hx => hne x (List.mem_cons_of_mem c hx)
    simp only [List.cons_append, receiveLoop, if_neg hc]
    exact ih hcs _

/-! ### The batch accumulator -/

lemma accum_fold_spec (B : Nat) :
    ∀ (fs : List FrameRecord) (d : List (List FrameRecord)) (r : List FrameRecord),
      (∀ b ∈ d, b.length = B) → r.length < B →
      (∀ b ∈ (fs.foldl (accumStep B) (d, r)).1, b.length = B) ∧
      (fs.foldl (accumStep B) (d, r)).2.length < B ∧
      ((fs.foldl (accumStep B) (d, r)).1.flatten ++ (fs.foldl (accumStep B) (d, r)).2
        = d.flatten ++ r ++ fs) ∧
      ((fs.foldl (accumStep B) (d, r)).1.length * B + (fs.foldl (accumStep B) (d, r)).2.length
        = d.length * B + r.length + fs.length) := by
  intro fs
  induction fs with
  | nil =>
    intro d r hd hr
    refine ⟨hd, hr, by simp, by simp⟩
  | cons f fs ih =>
    intro d r hd hr
    rw [List.foldl_cons]
    by_cases hfull : B ≤ (r ++ [f]).length
    · have hlen : (r ++ [f]).length = B := by
        simp only [List.length_append, List.length_singleton] at hfull ⊢
        omega
      have hstep : accumStep B (d, r) f = (d ++ [r ++ [f]], []) := by
        simp only [accumStep]
        rw [if_pos hfull]
      have hd2 : ∀ b ∈ d ++ [r ++ [f]], b.length = B := by
        intro b hb
        rcases List.mem_append.mp hb with hb | hb
        · exact hd b hb
        · simp at hb; subst hb; exact hlen
      have hr2 : ([] : List FrameRecord).length < B := by
        simp only [List.length_nil]
        omega
      obtain ⟨c1, c2, c3, c4⟩ := ih (d ++ [r ++ [f]]) [] hd2 hr2
      rw [hstep]
      refine ⟨c1, c2, ?_, ?_⟩
      · rw [c3]; simp [List.append_assoc]
      · rw [c4]
        have e1 : (d ++ [r ++ [f]]).length = d.length + 1 := by simp
        have e2 : ([] : List FrameRecord).length = 0 := rfl
        have e3 : (f :: fs).length = fs.length + 1 := by simp
        rw [e1, e2, e3]
        have hmul : (d.length + 1) * B = d.length * B + B := by ring
        have hlen2 : r.length + 1 = B := by simpa using hlen
        omega
    · have hstep : accumStep B (d, r) f = (d, r ++ [f]) := by
        simp only [accumStep]
        rw [if_neg hfull]
      have hr2 : (r ++ [f]).length < B := by omega
      obtain ⟨c1, c2, c3, c4⟩ := ih d (r ++ [f]) hd hr2
      rw [hstep]
      refine ⟨c1, c2, ?_, ?_⟩
      · rw [c3]; simp [List.append_assoc]
      · rw [c4]
        have e1 : (r ++ [f]).length = r.length + 1 := by simp
        have e3 : (f :: fs).length = fs.length + 1 := by simp
        rw [e1, e3]
        omega

lemma ceil_div_char (B q r : Nat) (hB : 0 < B) (hr : r < B) :
    (q * B + r + B - 1) / B = if r = 0 then q else q + 1 := by
  rcases Nat.eq_zero_or_pos r with hr0 | hrpos
  · subst hr0
    rw [if_pos rfl]
    have h1 : q * B + 0 + B - 1 = (B - 1) + q * B := by omega
    rw [h1, Nat.add_mul_div_right _ _ hB, Nat.div_eq_of_lt (by omega)]
    omega
  · rw [if_neg (by omega)]
    have h1 : q * B + r + B - 1 = (r - 1) + (q + 1) * B := by
      have : (q + 1) * B = q * B + B := by ring
      omega
    rw [h1, Nat.add_mul_div_right _ _ hB, Nat.div_eq_of_lt (by omega)]
    omega

lemma batchesOf_spec (B : Nat) (hB : 0 < B) (frames : List FrameRecord) :
    (batchesOf B frames).length = (frames.length + B - 1) / B ∧
    (∀ b ∈ (batchesOf B frames).dropLast, b.length = B) ∧
    (batchesOf B frames).flatten = frames := by
  obtain ⟨c1, c2, c3, c4⟩ :=
    accum_fold_spec B frames [] [] (by intro b hb; simp at hb) (by simpa using hB)
  simp only [List.flatten_nil, List.nil_append, List.length_nil, Nat.zero_mul,
    Nat.zero_add] at c3 c4
  unfold batchesOf
  by_cases hsnd : (frames.foldl (accumStep B) ([], [])).2 = []
  · rw [if_pos hsnd]
    rw [hsnd, List.append_nil] at c3
    rw [hsnd] at c4
    simp only [List.length_nil, Nat.add_zero] at c4
    refine ⟨?_, ?_, c3⟩
    · have hc := ceil_div_char B ((frames.foldl (accumStep B) ([], [])).1.length) 0 hB hB
      simp only [Nat.add_zero, if_true, eq_self_iff_true] at hc
      rw [← c4, hc]
    · intro b hb
      exact c1 b (List.dropLast_subset _ hb)
  · rw [if_neg hsnd]
    have hpos : 0 < (frames.foldl (accumStep B) ([], [])).2.length :=
      List.length_pos.mpr hsnd
    refine ⟨?_, ?_, ?_⟩
    · rw [List.length_append, List.length_singleton, ← c4,
        ceil_div_char B _ _ hB c2, if_neg (by omega)]
    · intro b hb
      rw [List.dropLast_concat] at hb
      exact c1 b hb
    · rw [List.flatten_append]
      simpa using c3

lemma batchesOf_small (B : Nat) (fs : List FrameRecord) (hne : fs ≠ [])
    (hlen : fs.length ≤ B) : batchesOf B fs = [fs] := by
  have hB : 0 < B := by
    have : 0 < fs.length := List.length_pos.mpr hne
    omega
  obtain ⟨c1, c2, c3, c4⟩ :=
    accum_fold_spec B fs [] [] (by intro b hb; simp at hb) (by simpa using hB)
  simp only [List.flatten_nil, List.nil_append, List.length_nil, Nat.zero_mul,
    Nat.zero_add] at c3 c4
  unfold batchesOf
  match hfst : (fs.foldl (accumStep B) ([], [])).1 with
  | [] =>
    rw [hfst] at c3 c4
    simp only [List.flatten_nil, List.nil_append] at c3
    rw [if_neg (by rw [c3]; exact hne), c3]
    simp [hfst]
  | b :: t =>
    have hb : b.length = B := c1 b (by rw [hfst]; exact List.mem_cons_self b t)
    rw [hfst] at c4
    simp only [List.length_cons] at c4
    have ht : t.length = 0 ∧ (fs.foldl (accumStep B) ([], [])).2.length = 0 := by
      have hmul : (t.length + 1) * B = t.length * B + B := by ring
      have hB1 : t.length * B ≥ t.length * 1 := Nat.mul_le_mul_left _ hB
      omega
    have ht1 : t = [] := List.length_eq_zero.mp ht.1
    have ht2 : (fs.foldl (accumStep B) ([], [])).2 = [] := List.length_eq_zero.mp ht.2
    rw [if_pos ht2, hfst, ht1]
    rw [hfst, ht1, ht2] at c3
    simp only [List.flatten_cons, List.flatten_nil, List.append_nil] at c3
    rw [c3]

lemma receiveAll_frames {fs : List FrameRecord} {chunks : List (List Char)}
    {res : List Char} (hwf : ∀ f ∈ fs, WellFormed f)
    (hne : ∀ c ∈ chunks, c ≠ [])
    (hc : chunks.flatten = (fs.map send_frame).flatten ++ res)
    (hres : '\n' ∉ res) :
    receiveAll chunks = (fs, res) := by
  unfold receiveAll
  rw [receiveLoop_flatten hne [] [] (by simp), hc, drain_frames hwf]
  rw [drain_no_nl hres]
  simp

/-! ### The processing stage -/

lemma process_batch_go {Image : Type} (caps : Caps Image) (dir : List Char) :
    ∀ (batch : List FrameRecord) (acc : List Outcome)
      (ws : List (List Char × Image)),
      batch.foldl
        (fun st fd =>
          let pr := processFrame caps dir fd
          (st.1 ++ [pr.1], st.2 ++ pr.2)) (acc, ws)
      = (acc ++ batch.map (fun fd => (processFrame caps dir fd).1),
         ws ++ (batch.map (fun fd => (processFrame caps dir fd).2)).flatten) := by
  intro batch
  induction batch with
  | nil => intro acc ws; simp
  | cons fd batch ih =>
    intro acc ws
    rw [List.foldl_cons, ih]
    simp [List.append_assoc]

lemma process_batch_eq {Image : Type} (caps : Caps Image) (dir : List Char)
    (batch : List FrameRecord) :
    _process_batch_with_spark caps dir batch
      = (batch.map (fun fd => (processFrame caps dir fd).1),
         (batch.map (fun fd => (processFrame caps dir fd).2)).flatten) := by
  unfold _process_batch_with_spark
  simpa using process_batch_go caps dir batch [] []

lemma processFrame_decode_fail {Image : Type} {caps : Caps Image}
    (dir : List Char) {fd : FrameRecord}
    (h : decodedImage caps fd.data = none) :
    (processFrame caps dir fd).1.status = "error" ∧
      (processFrame caps dir fd).1.output_path = none ∧
      (processFrame caps dir fd).2 = [] := by
  unfold decodedImage at h
  unfold processFrame
  cases hb : caps.b64decode fd.data with
  | error e => simp
  | ok bs =>
    rw [hb] at h
    have h2 : caps.imdecode bs = none := h
    simp [h2]

lemma processFrame_decode_ok {Image : Type} {caps : Caps Image}
    (dir : List Char) {fd : FrameRecord} {img : Image}
    (h : decodedImage caps fd.data = some img)
    (hseg : ∀ i : Image, ∃ o, caps.remove_background i = .ok o)
    (hwrite : ∀ (p : List Char) (i : Image), ∃ u, caps.imwrite p i = .ok u) :
    (processFrame caps dir fd).1.status = "success" ∧
      (processFrame caps dir fd).1.output_path
        = some (outputPathFor dir fd.frame_id) ∧
      ∃ pimg, (processFrame caps dir fd).2
        = [(outputPathFor dir fd.frame_id, pimg)] := by
  unfold decodedImage at h
  unfold processFrame
  cases hb : caps.b64decode fd.data with
  | error e =>
    rw [hb] at h
    exact absurd h (by simp)
  | ok bs =>
    rw [hb] at h
    have h2 : caps.imdecode bs = some img := h
    obtain ⟨pimg, hp⟩ := hseg img
    obtain ⟨u, hu⟩ := hwrite (outputPathFor dir fd.frame_id) pimg
    simp [h2, hp, hu]

/-! ### Element access in zipWith images -/

lemma getElem?_zipWith_both {α β γ : Type} (f : α → β → γ) :
    ∀ (l1 : List α) (l2 : List β) (i : Nat) (x : α) (y : β),
      l1[i]? = some x → l2[i]? = some y →
      (List.zipWith f l1 l2)[i]? = some (f x y) := by
  intro l1
  induction l1 with
  | nil => intro l2 i x y hx; simp at hx
  | cons a l1 ih =>
    intro l2 i x y hx hy
    cases l2 with
    | nil => simp at hy
    | cons b l2 =>
      cases i with
      | zero =>
        simp at hx hy
        subst hx; subst hy
        simp
      | succ i =>
        simp only [List.getElem?_cons_succ] at hx hy
        simpa using ih l2 i x y hx hy

/-! ### The connect retry loop -/

lemma connectGo_refused (oracle : Nat → ConnAttempt) :
    ∀ n k, (∀ i, k ≤ i → i < k + n → oracle i = .refused) →
      connectGo oracle n k = .failed (k + n) (k + n) := by
  intro n
  induction n with
  | zero => intro k h; simp [connectGo]
  | succ n ih =>
    intro k h
    have hk : oracle k = .refused := h k le_rfl (by omega)
    have hrec := ih (k + 1) (fun i h1 h2 => h i (by omega) (by omega))
    rw [show k + (n + 1) = (k + 1) + n by omega]
    simp only [connectGo, hk]
    exact hrec

lemma connectGo_fatal (oracle : Nat → ConnAttempt) :
    ∀ n k j e, k ≤ j → j < k + n →
      (∀ i, k ≤ i → i < j → oracle i = .refused) → oracle j = .fatal e →
      connectGo oracle n k = .raised e (j + 1) := by
  intro n
  induction n with
  | zero => intro k j e h1 h2 _ _; omega
  | succ n ih =>
    intro k j e h1 h2 hre hj
    rcases eq_or_lt_of_le h1 with rfl | hlt
    · simp only [connectGo, hj]
    · have hk : oracle k = .refused := hre k le_rfl hlt
      simp only [connectGo, hk]
      exact ih (k + 1) j e (by omega) (by omega)
        (fun i hi1 hi2 => hre i (by omega) hi2) hj

/-! ### A skipped line in the middle of the stream -/

lemma receiveAll_with_skipped {fs1 fs2 : List FrameRecord} {bad : List Char}
    {chunks : List (List Char)}
    (hwf1 : ∀ f ∈ fs1, WellFormed f) (hwf2 : ∀ f ∈ fs2, WellFormed f)
    (hne : ∀ c ∈ chunks, c ≠ [])
    (hbad : lineToFrame bad = none) (hbadnl : '\n' ∉ bad)
    (hc : chunks.flatten
      = (fs1.map send_frame).flatten ++ bad
          ++ '\n' :: (fs2.map send_frame).flatten) :
    receiveAll chunks = (fs1 ++ fs2, []) := by
  unfold receiveAll
  rw [receiveLoop_flatten hne [] [] (by simp), hc]
  rw [show (fs1.map send_frame).flatten ++ bad
        ++ '\n' :: (fs2.map send_frame).flatten
      = (fs1.map send_frame).flatten
        ++ (bad ++ '\n' :: (fs2.map send_frame).flatten) by
    simp [List.append_assoc]]
  rw [drain_frames hwf1]
  rw [drain_line hbadnl]
  simp only [List.nil_append, hbad, Option.toList_none, List.append_nil]
  rw [show (fs2.map send_frame).flatten
      = (fs2.map send_frame).flatten ++ [] by simp]
  rw [drain_frames hwf2]
  simp [drainLines]

/-! ### The claims -/

/-- C1: for every batch of M frame records of which K have payloads that
fail to decode as images (and segmentation and writing succeed for the rest,
as the claim presumes), _process_batch_with_spark returns exactly M outcome
records, K with status error and M − K with status success, and each success
outcome carries the output path of a file written during the call. -/
theorem C1_batch_outcome_accounting {Image : Type} (caps : Caps Image)
    (dir : List Char) (batch : List FrameRecord)
    (hseg : ∀ i : Image, ∃ o, caps.remove_background i = .ok o)
    (hwrite : ∀ (p : List Char) (i : Image), ∃ u, caps.imwrite p i = .ok u) :
    (_process_batch_with_spark caps dir batch).1.length = batch.length ∧
    ((_process_batch_with_spark caps dir batch).1.filter
        (fun o => o.status == "error")).length
      = (batch.filter (fun fd => (decodedImage caps fd.data).isNone)).length ∧
    ((_process_batch_with_spark caps dir batch).1.filter
        (fun o => o.status == "success")).length
      = batch.length
          - (batch.filter (fun fd => (decodedImage caps fd.data).isNone)).length ∧
    ∀ o ∈ (_process_batch_with_spark caps dir batch).1, o.status = "success" →
      ∃ p, o.output_path = some p ∧
        p ∈ (_process_batch_with_spark caps dir batch).2.map Prod.fst := by
  have herr : ∀ fd : FrameRecord,
      ((processFrame caps dir fd).1.status == "error")
        = (decodedImage caps fd.data).isNone := by
    intro fd
    cases hdec : decodedImage caps fd.data with
    | none =>
      obtain ⟨h1, _, _⟩ := processFrame_decode_fail dir hdec
      rw [h1]
      rfl
    | some img =>
      obtain ⟨h1, _, _⟩ := processFrame_decode_ok dir hdec hseg hwrite
      rw [h1]
      rfl
  have hsucc : ∀ fd : FrameRecord,
      ((processFrame caps dir fd).1.status == "success")
        = !(decodedImage caps fd.data).isNone := by
    intro fd
    cases hdec : decodedImage caps fd.data with
    | none =>
      obtain ⟨h1, _, _⟩ := processFrame_decode_fail dir hdec
      rw [h1]
      rfl
    | some img =>
      obtain ⟨h1, _, _⟩ := processFrame_decode_ok dir hdec hseg hwrite
      rw [h1]
      rfl
  rw [process_batch_eq]
  have hKerr : (List.filter (fun o => o.status == "error")
        (batch.map (fun fd => (processFrame caps dir fd).1))).length
      = (batch.filter (fun fd => (decodedImage caps fd.data).isNone)).length := by
    rw [← List.countP_eq_length_filter, ← List.countP_eq_length_filter,
      List.countP_map]
    exact List.countP_congr (fun fd _ => by simp [Function.comp, herr fd])
  refine ⟨by simp, hKerr, ?_, ?_⟩
  · rw [← List.countP_eq_length_filter, List.countP_map]
    have hcnt := List.length_eq_countP_add_countP
      (fun fd => (decodedImage caps fd.data).isNone) batch
    have hflip : List.countP
          ((fun o : Outcome => o.status == "success")
            ∘ (fun fd => (processFrame caps dir fd).1)) batch
        = List.countP (fun fd =>
            decide ¬ ((decodedImage caps fd.data).isNone = true)) batch := by
      refine List.countP_congr (fun fd _ => ?_)
      simp [Function.comp, hsucc fd]
    rw [hflip, ← List.countP_eq_length_filter]
    omega
  · intro o ho hs
    obtain ⟨fd, hfd, rfl⟩ := List.mem_map.mp ho
    cases hdec : decodedImage caps fd.data with
    | none =>
      obtain ⟨h1, _, _⟩ := processFrame_decode_fail dir hdec
      rw [h1] at hs
      exact absurd hs (by decide)
    | some img =>
      obtain ⟨_, h2, pimg, h3⟩ := processFrame_decode_ok dir hdec hseg hwrite
      refine ⟨outputPathFor dir fd.frame_id, h2, ?_⟩
      have hmem : (outputPathFor dir fd.frame_id, pimg)
          ∈ (batch.map (fun fd => (processFrame caps dir fd).2)).flatten := by
        refine List.mem_flatten.mpr ⟨(processFrame caps dir fd).2, ?_, ?_⟩
        · exact List.mem_map_of_mem _ hfd
        · rw [h3]; exact List.mem_singleton.mpr rfl
      exact List.mem_map_of_mem Prod.fst hmem

/-- C1 witness: the concrete two-frame batch whose second payload does not
decode, under capabilities where segmentation and writing always succeed. -/
theorem C1_witness :
    (_process_batch_with_spark capsOk dirC1 batchC1).1.length = batchC1.length ∧
    ((_process_batch_with_spark capsOk dirC1 batchC1).1.filter
        (fun o => o.status == "error")).length
      = (batchC1.filter (fun fd => (decodedImage capsOk fd.data).isNone)).length ∧
    ((_process_batch_with_spark capsOk dirC1 batchC1).1.filter
        (fun o => o.status == "success")).length
      = batchC1.length
          - (batchC1.filter (fun fd => (decodedImage capsOk fd.data).isNone)).length ∧
    ∀ o ∈ (_process_batch_with_spark capsOk dirC1 batchC1).1, o.status = "success" →
      ∃ p, o.output_path = some p ∧
        p ∈ (_process_batch_with_spark capsOk dirC1 batchC1).2.map Prod.fst :=
  C1_batch_outcome_accounting capsOk dirC1 batchC1
    (fun _ => ⟨(), rfl⟩) (fun _ _ => ⟨(), rfl⟩)

/-- C2: decoding inverts encoding robustly against chunking: a stream of N
well-formed encoded frames split at arbitrary byte offsets into (nonempty)
chunks decodes to exactly those N frames in order with an empty residual
buffer, and decode(encode(f)) = f for every well-formed frame. -/
theorem C2_wire_roundtrip (fs : List FrameRecord) (chunks : List (List Char))
    (hwf : ∀ f ∈ fs, WellFormed f) (hne : ∀ c ∈ chunks, c ≠ [])
    (hc : chunks.flatten = (fs.map send_frame).flatten) :
    receiveAll chunks = (fs, []) ∧
    ∀ f : FrameRecord, WellFormed f → lineToFrame (jsonOfFrame f) = some f := by
  refine ⟨?_, fun f hf => lineToFrame_jsonOfFrame hf⟩
  exact receiveAll_frames hwf hne (by rw [hc, List.append_nil]) (by simp)

/-- C2 witness: one concrete record split mid-record into two chunks decodes
back to the record, and the record round-trips through one line. -/
theorem C2_witness :
    receiveAll chunksC2 = ([frameC9a], []) ∧
    lineToFrame (jsonOfFrame frameC9a) = some frameC9a :=
  ⟨(C2_wire_roundtrip [frameC9a] chunksC2 (by decide) (by decide)
      (by simp [chunksC2, List.take_append_drop])).1,
   (C2_wire_roundtrip [frameC9a] chunksC2 (by decide) (by decide)
      (by simp [chunksC2, List.take_append_drop])).2 frameC9a (by decide)⟩

/-- C3: for every stream of T decodable frames and batch size B > 0, the
accumulator dispatches exactly ceil(T / B) = (T + B − 1) / B batches (0 when
T = 0), every dispatched batch except possibly the last has size exactly B,
and concatenating the dispatched batches in dispatch order reproduces the
frame arrival order. -/
theorem C3_accumulator_batches (B : Nat) (hB : 0 < B)
    (frames : List FrameRecord) :
    (batchesOf B frames).length = (frames.length + B - 1) / B ∧
    (∀ b ∈ (batchesOf B frames).dropLast, b.length = B) ∧
    (batchesOf B frames).flatten = frames :=
  batchesOf_spec B hB frames

set_option maxRecDepth 8192 in
/-- C3 witness: frames 0..24 with batch size 10 give ceil(25/10) = 3 batches
of sizes 10, 10, 5 whose concatenation is the original stream. -/
theorem C3_witness :
    (batchesOf 10 framesC3).length = (framesC3.length + 10 - 1) / 10 ∧
    (batchesOf 10 framesC3).flatten = framesC3 ∧
    (batchesOf 10 framesC3).map List.length = [10, 10, 5] :=
  ⟨(C3_accumulator_batches 10 (by decide) framesC3).1,
   (C3_accumulator_batches 10 (by decide) framesC3).2.2,
   by decide⟩

/-- C4: a zero-byte receive is treated as orderly end of stream: the loop
exits there no matter what would follow, a non-empty remainder of complete
frames (of at most batch_size frames) is dispatched as one final batch, and
the bytes of a partial trailing record are left undecoded in the discarded
residual buffer without any error. -/
theorem C4_eof_final_flush (fs : List FrameRecord) (res : List Char)
    (chunks rest : List (List Char))
    (hwf : ∀ f ∈ fs, WellFormed f) (hne : ∀ c ∈ chunks, c ≠ [])
    (hc : chunks.flatten = (fs.map send_frame).flatten ++ res)
    (hres : '\n' ∉ res) (hfs : fs ≠ []) (hlen : fs.length ≤ batch_size) :
    receiveAll (chunks ++ [] :: rest) = (fs, res) ∧
    receive_and_process_frames chunks = ([fs], res) := by
  have hrecv : receiveAll chunks = (fs, res) := receiveAll_frames hwf hne hc hres
  constructor
  · rw [receiveAll, receiveLoop_stop_empty hne rest]
    exact hrecv
  · unfold receive_and_process_frames
    rw [hrecv]
    simp only
    rw [batchesOf_small batch_size fs hfs hlen]

/-- C4 witness: 7 complete frames followed by a partial 8th record and a
zero-byte read; the 7 frames come out as one final batch and the partial
bytes stay in the discarded residual buffer. -/
theorem C4_witness :
    receiveAll (chunksC4 ++ [] :: [['x']]) = (framesC4, ['\x7b', '"', 'f']) ∧
    receive_and_process_frames chunksC4 = ([framesC4], ['\x7b', '"', 'f']) :=
  C4_eof_final_flush framesC4 ['\x7b', '"', 'f'] chunksC4 [['x']]
    (by decide) (by decide) (by simp [chunksC4]) (by decide) (by decide)
    (by decide)

/-- C5: remove_background composites each pixel from the segmentation mask:
a pixel whose mask value is below the 0.2 confidence threshold keeps the
original input pixel, and every other pixel becomes the constant replacement
color BG_COLOR = (192, 192, 192). -/
theorem C5_background_compositing (segment : List Pixel → List Nat)
    (frame : List Pixel) (i : Nat)
    (hlen : (segment frame).length = frame.length) (hi : i < frame.length) :
    ∃ v : Nat, (segment frame)[i]? = some v ∧
      (((v : ℚ) < 1 / 5 →
        (remove_background segment frame)[i]? = frame[i]?) ∧
       (¬ ((v : ℚ) < 1 / 5) →
        (remove_background segment frame)[i]? = some BG_COLOR)) := by
  have hmask : i < (segment frame).length := by omega
  have hv : (segment frame)[i]? = some ((segment frame).get ⟨i, hmask⟩) := by
    simp [List.getElem?_eq_getElem hmask]
  have hpx : frame[i]? = some (frame.get ⟨i, hi⟩) := by
    simp [List.getElem?_eq_getElem hi]
  have hzip := getElem?_zipWith_both
    (fun (m : Nat) (px : Pixel) =>
      if (1 : ℚ) / 5 < (m : ℚ) then BG_COLOR else px)
    (segment frame) frame i _ _ hv hpx
  refine ⟨(segment frame).get ⟨i, hmask⟩, hv, ?_, ?_⟩
  · intro hlt
    rw [remove_background, hzip]
    simp only [if_neg (lt_asymm hlt), hpx]
  · intro hge
    have hgt : (1 : ℚ) / 5 < ((segment frame).get ⟨i, hmask⟩ : ℚ) := by
      rcases Nat.eq_zero_or_pos ((segment frame).get ⟨i, hmask⟩) with h0 | h1
      · exfalso
        refine hge ?_
        rw [h0]
        norm_num
      · have : (1 : ℚ) ≤ ((segment frame).get ⟨i, hmask⟩ : ℚ) := by
          exact_mod_cast h1
        linarith
    rw [remove_background, hzip]
    simp only [if_pos hgt]

/-- C5 witness: on a two-pixel frame with mask values 0 and 7, pixel 0 keeps
its value and pixel 1 becomes the gray replacement color. -/
theorem C5_witness :
    (∃ v : Nat, (segC5 frameC5)[0]? = some v ∧
      (((v : ℚ) < 1 / 5 →
        (remove_background segC5 frameC5)[0]? = frameC5[0]?) ∧
       (¬ ((v : ℚ) < 1 / 5) →
        (remove_background segC5 frameC5)[0]? = some BG_COLOR))) ∧
    (∃ v : Nat, (segC5 frameC5)[1]? = some v ∧
      (((v : ℚ) < 1 / 5 →
        (remove_background segC5 frameC5)[1]? = frameC5[1]?) ∧
       (¬ ((v : ℚ) < 1 / 5) →
        (remove_background segC5 frameC5)[1]? = some BG_COLOR))) :=
  ⟨C5_background_compositing segC5 frameC5 0 (by decide) (by decide),
   C5_background_compositing segC5 frameC5 1 (by decide) (by decide)⟩

/-- C6: with a retry budget of m, if every attempt is refused the connect
loop makes exactly m attempts (each followed by the fixed delay, counted by
the sleeps component) and then returns the failure result; any failure other
than connection-refused propagates immediately without further attempts;
connect_to_server is this loop with the source's hardcoded budget. -/
theorem C6_connect_retries (oracle : Nat → ConnAttempt) (m : Nat) :
    ((∀ i, i < m → oracle i = .refused) →
      connectGo oracle m 0 = .failed m m) ∧
    (∀ j e, j < m → (∀ i, i < j → oracle i = .refused) →
      oracle j = .fatal e → connectGo oracle m 0 = .raised e (j + 1)) ∧
    connect_to_server oracle = connectGo oracle max_retries 0 := by
  refine ⟨?_, ?_, rfl⟩
  · intro h
    have hgo := connectGo_refused oracle m 0 (fun i _ h2 => h i (by omega))
    simpa using hgo
  · intro j e hj hre hj2
    have hgo := connectGo_fatal oracle m 0 j e (by omega) (by omega)
      (fun i _ h2 => hre i h2) hj2
    simpa using hgo

/-- C6 witness: with budget 3 and every attempt refused there are exactly 3
attempts and 3 fixed-delay sleeps before failure; with a non-refused error
at attempt 1 the exception propagates after 2 attempts. -/
theorem C6_witness :
    connectGo oracleRefused 3 0 = .failed 3 3 ∧
    connectGo oracleFatal 3 0 = .raised "unreachable" 2 :=
  ⟨(C6_connect_retries oracleRefused 3).1 (fun _ _ => rfl),
   (C6_connect_retries oracleFatal 3).2.1 1 "unreachable" (by decide)
     (fun i hi => by
       have h0 : i = 0 := by omega
       rw [h0]
       rfl)
     rfl⟩

/-- C7: a failure scoped to a single frame never aborts its batch: the
outcome list is exactly the per-frame map over the batch (so every frame is
processed no matter what happens to the others), a payload that does not
decode yields that frame's error outcome with the decode-error detail, and a
segmentation or write exception yields that frame's error outcome. -/
theorem C7_frame_failure_isolation {Image : Type} (caps : Caps Image)
    (dir : List Char) (batch : List FrameRecord) :
    (_process_batch_with_spark caps dir batch).1
      = batch.map (fun fd => (processFrame caps dir fd).1) ∧
    (∀ fd : FrameRecord, ∀ bs, caps.b64decode fd.data = .ok bs →
      caps.imdecode bs = none →
      (processFrame caps dir fd).1
        = ⟨fd.frame_id, "error", none, some "Failed to decode frame"⟩) ∧
    (∀ fd : FrameRecord, ∀ bs img e, caps.b64decode fd.data = .ok bs →
      caps.imdecode bs = some img → caps.remove_background img = .error e →
      (processFrame caps dir fd).1 = ⟨fd.frame_id, "error", none, some e⟩) ∧
    (∀ fd : FrameRecord, ∀ bs img pimg e, caps.b64decode fd.data = .ok bs →
      caps.imdecode bs = some img → caps.remove_background img = .ok pimg →
      caps.imwrite (outputPathFor dir fd.frame_id) pimg = .error e →
      (processFrame caps dir fd).1 = ⟨fd.frame_id, "error", none, some e⟩) := by
  refine ⟨by rw [process_batch_eq], ?_, ?_, ?_⟩
  · intro fd bs h1 h2
    simp [processFrame, h1, h2]
  · intro fd bs img e h1 h2 h3
    simp [processFrame, h1, h2, h3]
  · intro fd bs img pimg e h1 h2 h3 h4
    simp [processFrame, h1, h2, h3, h4]

/-- C7 witness: under capabilities whose segmentation always raises, the
batch still yields one outcome per frame; the undecodable frame gets the
decode-error detail and the decodable frame gets the segmentation error. -/
theorem C7_witness :
    (_process_batch_with_spark capsSegRaise dirC1 batchC1).1
      = batchC1.map (fun fd => (processFrame capsSegRaise dirC1 fd).1) ∧
    (processFrame capsSegRaise dirC1 (⟨1, 1, 1, 1, []⟩ : FrameRecord)).1
      = ⟨1, "error", none, some "Failed to decode frame"⟩ ∧
    (processFrame capsSegRaise dirC1 (⟨0, 0, 1, 1, ['A']⟩ : FrameRecord)).1
      = ⟨0, "error", none, some "segfault"⟩ :=
  ⟨(C7_frame_failure_isolation capsSegRaise dirC1 batchC1).1,
   (C7_frame_failure_isolation capsSegRaise dirC1 batchC1).2.1
     ⟨1, 1, 1, 1, []⟩ [] rfl (by decide),
   (C7_frame_failure_isolation capsSegRaise dirC1 batchC1).2.2.1
     ⟨0, 0, 1, 1, ['A']⟩ ['A'.toNat] () "segfault" rfl (by decide) rfl⟩

/-- C8 counterexample: on the normal exit path (bind, accept and processing
all complete), run returns while the accepted connection is still open —
cleanup closes only the listening socket — refuting the claim that both
resources are released on every exit path before the run terminates. -/
theorem C8_counterexample :
    (run ⟨false, false, false⟩).connection_open = true := rfl

/-- C8 (amended): on every exit path of run the listening socket is
released, but the accepted connection is not closed by run: it remains held
exactly when accept succeeded, and is only released by process teardown. -/
theorem C8_listener_always_released (s : RunScenario) :
    (run s).server_socket_open = false ∧
    ((run s).connection_open = true
      ↔ s.bind_fails = false ∧ s.accept_fails = false) := by
  obtain ⟨b1, b2, b3⟩ := s
  cases b1 <;> cases b2 <;> cases b3 <;> decide

/-- C9: a malformed wire record (a newline-terminated line that is not valid
JSON) is discarded up to its newline boundary and the stream continues:
it produces no frame, and every well-formed record before and after it is
still decoded, leaving an empty residual buffer. -/
theorem C9_malformed_line_recovery (fs1 fs2 : List FrameRecord)
    (bad : List Char) (chunks : List (List Char))
    (hwf1 : ∀ f ∈ fs1, WellFormed f) (hwf2 : ∀ f ∈ fs2, WellFormed f)
    (hne : ∀ c ∈ chunks, c ≠ [])
    (hbad : lineToFrame bad = none) (hbadnl : '\n' ∉ bad)
    (hc : chunks.flatten
      = (fs1.map send_frame).flatten ++ bad
          ++ '\n' :: (fs2.map send_frame).flatten) :
    receiveAll chunks = (fs1 ++ fs2, []) :=
  receiveAll_with_skipped hwf1 hwf2 hne hbad hbadnl hc

/-- C9 witness: a valid record, then the malformed line, then another valid
record; both valid records are decoded and the malformed line vanishes. -/
theorem C9_witness :
    receiveAll chunksC9 = ([frameC9a] ++ [frameC9b], []) :=
  C9_malformed_line_recovery [frameC9a] [frameC9b] badLineC9 chunksC9
    (by decide) (by decide) (by decide) (by decide) (by decide)
    (by simp [chunksC9, List.append_assoc])

/-- C10: a line that is empty or contains only whitespace between two record
delimiters is silently skipped: it is consumed from the buffer, produces no
frame record and no error, and the decoded frame sequence is unchanged. -/
theorem C10_blank_line_skipped (fs1 fs2 : List FrameRecord)
    (ws : List Char) (chunks : List (List Char))
    (hwf1 : ∀ f ∈ fs1, WellFormed f) (hwf2 : ∀ f ∈ fs2, WellFormed f)
    (hne : ∀ c ∈ chunks, c ≠ [])
    (hws : ∀ c ∈ ws, isSpaceChar c = true) (hwsnl : '\n' ∉ ws)
    (hc : chunks.flatten
      = (fs1.map send_frame).flatten ++ ws
          ++ '\n' :: (fs2.map send_frame).flatten) :
    receiveAll chunks = (fs1 ++ fs2, []) := by
  have hblank : lineToFrame ws = none := by
    have h1 : ws.dropWhile isSpaceChar = [] := List.dropWhile_eq_nil_iff.mpr hws
    unfold lineToFrame
    rw [if_pos (by simp [stripChars, h1])]
  exact receiveAll_with_skipped hwf1 hwf2 hne hblank hwsnl hc

/-- C10 witness: a whitespace-only line between two valid records leaves the
decoded sequence unchanged. -/
theorem C10_witness :
    receiveAll chunksC10 = ([frameC9a] ++ [frameC9b], []) :=
  C10_blank_line_skipped [frameC9a] [frameC9b] wsLineC10 chunksC10
    (by decide) (by decide) (by decide) (by decide) (by decide)
    (by simp [chunksC10, List.append_assoc])
